import Mathlib

/-!
# Verification of the GLSI search/cache pipeline

A shallow embedding of the Go packages `internal/cache`, `internal/engine`,
`internal/scraper` and (as an external collaborator) `internal/search` of the
`go_search_mcp` repository, together with proofs of the specified properties.

Go strings are embedded as `List Char` (`GoStr`); byte strings as `List Nat`
with every element `< 256`; SQL timestamps and `time.Duration` values as `Int`
nanoseconds.  The SQLite-backed cache table is embedded as an association list
keyed by the query hash (the table's primary key).  External effects
(`search.Search`, the per-URL HTTP fetch inside `scraper.Scrape`) are passed in
as explicit oracles; the database I/O never fails in the embedding, so the
`error` return channels that in Go only carry storage failures are dropped.
-/

/-- Go `string`, embedded as a list of characters. -/
abbrev GoStr := List Char

/-- Coerce a Lean string literal to the embedding of a Go string. -/
def goStr (s : String) : GoStr := s.data

/-- Embedding of Go `unicode.IsSpace`: the White_Space property code points
(Go's `unicode.White_Space` range table, given here by exhaustive enumeration). -/
def goIsSpace (c : Char) : Bool :=
  ([9, 10, 11, 12, 13, 32, 0x85, 0xA0, 0x1680,
    0x2000, 0x2001, 0x2002, 0x2003, 0x2004, 0x2005, 0x2006, 0x2007,
    0x2008, 0x2009, 0x200A, 0x2028, 0x2029, 0x202F, 0x205F, 0x3000] : List Nat).contains c.toNat

/-- Embedding of Go `unicode.ToLower` on one character.  The ASCII range is
modelled exactly; case mappings of non-ASCII letters (Go's full Unicode case
tables) are abstracted to the identity. -/
def goCharToLower (c : Char) : Char :=
  if 'A' ≤ c ∧ c ≤ 'Z' then Char.ofNat (c.toNat + 32) else c

/-- Embedding of Go `strings.ToLower`. -/
def goToLower (s : GoStr) : GoStr := s.map goCharToLower

/-- Embedding of Go `strings.TrimSpace`: drop Unicode whitespace from both
ends. -/
def goTrimSpace (s : GoStr) : GoStr :=
  ((s.dropWhile goIsSpace).reverse.dropWhile goIsSpace).reverse

/-- Embedding of Go `strings.Split(s, "\n")`: split on every newline; always
returns at least one (possibly empty) field. -/
def splitLines : GoStr → List GoStr
  | [] => [[]]
  | c :: rest =>
    if c = '\n' then [] :: splitLines rest
    else (c :: (splitLines rest).headD []) :: (splitLines rest).tail

/-- UTF-8 encoding of one code point (Go `[]byte(string)` conversion,
per-rune). -/
def utf8Char (c : Char) : List Nat :=
  let n := c.toNat
  if n < 0x80 then [n]
  else if n < 0x800 then [0xC0 + n / 64, 0x80 + n % 64]
  else if n < 0x10000 then [0xE0 + n / 4096, 0x80 + n / 64 % 64, 0x80 + n % 64]
  else [0xF0 + n / 262144, 0x80 + n / 4096 % 64, 0x80 + n / 64 % 64, 0x80 + n % 64]

/-- UTF-8 encoding of a whole string (Go `[]byte(s)`). -/
def utf8Encode (s : GoStr) : List Nat := (s.map utf8Char).flatten

section Sha256

/-- Truncate to a 32-bit word. -/
def w32 (x : Nat) : Nat := x % 4294967296

/-- Right rotation of a 32-bit word. -/
def rotr (n x : Nat) : Nat := w32 (x >>> n ||| x <<< (32 - n))

/-- SHA-256 small sigma 0. -/
def ssig0 (x : Nat) : Nat := rotr 7 x ^^^ rotr 18 x ^^^ x >>> 3

/-- SHA-256 small sigma 1. -/
def ssig1 (x : Nat) : Nat := rotr 17 x ^^^ rotr 19 x ^^^ x >>> 10

/-- SHA-256 big sigma 0. -/
def bsig0 (x : Nat) : Nat := rotr 2 x ^^^ rotr 13 x ^^^ rotr 22 x

/-- SHA-256 big sigma 1. -/
def bsig1 (x : Nat) : Nat := rotr 6 x ^^^ rotr 11 x ^^^ rotr 25 x

/-- SHA-256 choice function. -/
def chf (x y z : Nat) : Nat := x &&& y ^^^ ((x ^^^ 4294967295) &&& z)

/-- SHA-256 majority function. -/
def majf (x y z : Nat) : Nat := x &&& y ^^^ x &&& z ^^^ y &&& z

/-- The 64 SHA-256 round constants. -/
def K256 : List Nat :=
  [1116352408, 1899447441, 3049323471, 3921009573,
   961987163, 1508970993, 2453635748, 2870763221,
   3624381080, 310598401, 607225278, 1426881987,
   1925078388, 2162078206, 2614888103, 3248222580,
   3835390401, 4022224774, 264347078, 604807628,
   770255983, 1249150122, 1555081692, 1996064986,
   2554220882, 2821834349, 2952996808, 3210313671,
   3336571891, 3584528711, 113926993, 338241895,
   666307205, 773529912, 1294757372, 1396182291,
   1695183700, 1986661051, 2177026350, 2456956037,
   2730485921, 2820302411, 3259730800, 3345764771,
   3516065817, 3600352804, 4094571909, 275423344,
   430227734, 506948616, 659060556, 883997877,
   958139571, 1322822218, 1537002063, 1747873779,
   1955562222, 2024104815, 2227730452, 2361852424,
   2428436474, 2756734187, 3204031479, 3329325298]

/-- SHA-256 working state: eight 32-bit words. -/
structure H8 where
  a : Nat
  b : Nat
  c : Nat
  d : Nat
  e : Nat
  f : Nat
  g : Nat
  h : Nat
deriving Repr, DecidableEq

/-- SHA-256 initial hash value. -/
def initH : H8 :=
  ⟨1779033703, 3144134277, 1013904242, 2773480762,
   1359893119, 2600822924, 528734635, 1541459225⟩

/-- Group a byte list into big-endian 32-bit words (groups of four bytes). -/
def bytesToWords : List Nat → List Nat
  | b0 :: b1 :: b2 :: b3 :: rest => (((b0 * 256 + b1) * 256 + b2) * 256 + b3) :: bytesToWords rest
  | _ => []

/-- One step of the message-schedule extension: append word
`σ1(w[t-2]) + w[t-7] + σ0(w[t-15]) + w[t-16]`. -/
def extendStep (w : List Nat) : List Nat :=
  let t := w.length
  w ++ [w32 (ssig1 (w.getD (t - 2) 0) + w.getD (t - 7) 0 +
             ssig0 (w.getD (t - 15) 0) + w.getD (t - 16) 0)]

/-- Extend the message schedule `n` more words. -/
def extendSchedule : Nat → List Nat → List Nat
  | 0, w => w
  | Nat.succ k, w => extendSchedule k (extendStep w)

/-- One SHA-256 compression round for round constant and schedule word `kw`. -/
def shaRound (s : H8) (kw : Nat × Nat) : H8 :=
  let t1 := w32 (s.h + bsig1 s.e + chf s.e s.f s.g + kw.1 + kw.2)
  let t2 := w32 (bsig0 s.a + majf s.a s.b s.c)
  ⟨w32 (t1 + t2), s.a, s.b, s.c, w32 (s.d + t1), s.e, s.f, s.g⟩

/-- Compress one 64-byte block into the running hash. -/
def compressBlock (h0 : H8) (block : List Nat) : H8 :=
  let ws := extendSchedule 48 (bytesToWords block)
  let s := (K256.zip ws).foldl shaRound h0
  ⟨w32 (h0.a + s.a), w32 (h0.b + s.b), w32 (h0.c + s.c), w32 (h0.d + s.d),
   w32 (h0.e + s.e), w32 (h0.f + s.f), w32 (h0.g + s.g), w32 (h0.h + s.h)⟩

/-- Big-endian bytes of a 64-bit value. -/
def lenBytes (n : Nat) : List Nat :=
  [n >>> 56 % 256, n >>> 48 % 256, n >>> 40 % 256, n >>> 32 % 256,
   n >>> 24 % 256, n >>> 16 % 256, n >>> 8 % 256, n % 256]

/-- SHA-256 padding: append `0x80`, zeros to 56 mod 64, then the bit length. -/
def sha256Pad (msg : List Nat) : List Nat :=
  let L := msg.length
  msg ++ 0x80 :: List.replicate ((120 - (L + 1) % 64) % 64) 0 ++ lenBytes (8 * L)

/-- Split a byte list into 64-byte blocks (structural recursion on a fuel
argument so that the definition reduces in the kernel; the fuel is always
sufficient because each step consumes at least one byte). -/
def blocks64Go : Nat → List Nat → List (List Nat)
  | 0, _ => []
  | _ + 1, [] => []
  | fuel + 1, l => l.take 64 :: blocks64Go fuel (l.drop 64)

/-- Split a byte list into 64-byte blocks. -/
def blocks64 (l : List Nat) : List (List Nat) := blocks64Go l.length l

/-- Big-endian bytes of one 32-bit word. -/
def wordBytes (w : Nat) : List Nat := [w >>> 24 % 256, w >>> 16 % 256, w >>> 8 % 256, w % 256]

/-- SHA-256 of a byte string, as 32 bytes. -/
def sha256 (msg : List Nat) : List Nat :=
  let hf := (blocks64 (sha256Pad msg)).foldl compressBlock initH
  wordBytes hf.a ++ wordBytes hf.b ++ wordBytes hf.c ++ wordBytes hf.d ++
  wordBytes hf.e ++ wordBytes hf.f ++ wordBytes hf.g ++ wordBytes hf.h

/-- Lowercase hexadecimal digit for a value below 16 (Go `fmt` verb `%x`). -/
def hexDigit (n : Nat) : Char :=
  if n < 10 then Char.ofNat (48 + n) else Char.ofNat (87 + n)

/-- Two lowercase hex digits of one byte. -/
def hexByte (b : Nat) : GoStr := [hexDigit (b / 16 % 16), hexDigit (b % 16)]

/-- Lowercase hex string of a byte list (Go `fmt.Sprintf` with verb `%x`). -/
def hexOfBytes (bs : List Nat) : GoStr := (bs.map hexByte).flatten

end Sha256

/-! ## `internal/cache` -/

namespace Cache

/-- One row of the `cache` table: `content` and `updated_at` (SQL `DATETIME`,
embedded as `Int` nanoseconds). -/
structure Entry where
  content : GoStr
  updatedAt : Int
deriving Repr, DecidableEq

/-- The `cache` table: an association list keyed by `query_hash`, which is the
table's primary key, so at most one row per key ever exists. -/
abbrev State := List (GoStr × Entry)

/-- Embedding of `cacheTTL = 24 * time.Hour`, as `Int` nanoseconds (Go `time.Duration`). -/
def cacheTTL : Int := 24 * 3600 * 1000000000

/-- Row lookup, `SELECT content, updated_at FROM cache WHERE query_hash = ?`: the first
row carrying key `k`, if any. -/
def lookup : State → GoStr → Option Entry
  | [], _ => none
  | r :: rest, k => if r.1 = k then some r.2 else lookup rest k

/-- Embedding of `Cache.Get`: returns `("", false)` when the row is absent or
older than the TTL at read time `now`, and `(content, true)` otherwise.
Storage I/O never fails in the embedding, so the `error` return is dropped. -/
def Get (st : State) (now : Int) (queryHash : GoStr) : GoStr × Bool :=
  match lookup st queryHash with
  | none => ([], false)
  | some e =>
    if now - e.updatedAt > cacheTTL then ([], false)
    else (e.content, true)

/-- Embedding of `Cache.Set`: the SQL upsert — overwrite the row in place when
the key exists, append a fresh row otherwise; `updated_at` becomes `now`. -/
def Set (st : State) (now : Int) (queryHash content : GoStr) : State :=
  if (lookup st queryHash).isSome then
    st.map (fun r => if r.1 = queryHash then (r.1, ⟨content, now⟩) else r)
  else
    st ++ [(queryHash, ⟨content, now⟩)]

/-- Embedding of `Cache.Clear`: `DELETE FROM cache` when the key is empty,
`DELETE FROM cache WHERE query_hash = ?` otherwise. -/
def Clear (st : State) (queryHash : GoStr) : State :=
  if queryHash = [] then []
  else st.filter (fun r => decide (r.1 ≠ queryHash))

end Cache

/-! ## `internal/scraper` -/

namespace Scraper

/-- Embedding of `scraper.ScrapedPage`: the result of scraping a single URL. -/
structure ScrapedPage where
  url : GoStr
  content : GoStr
  err : Option GoStr
deriving Repr, DecidableEq

/-- Embedding of `scraper.Scrape`.  The per-URL HTTP fetch and readability
extraction (`scrapeSingle`) is an external effect, passed in as the oracle
`fetch`; every goroutine writes exactly slot `results[idx]` with the URL it was
given, so after the `WaitGroup` barrier the result list pairs each input URL,
in order, with its fetch outcome. -/
def Scrape (fetch : GoStr → GoStr × Option GoStr) (urls : List GoStr) : List ScrapedPage :=
  urls.map (fun u => ⟨u, (fetch u).1, (fetch u).2⟩)

end Scraper

/-! ## `internal/search` (external collaborator) -/

namespace Search

/-- Embedding of `search.Result`: a single search-engine result. -/
structure Result where
  url : GoStr
  title : GoStr
deriving Repr, DecidableEq

end Search

/-! ## `internal/engine` -/

namespace Engine

/-- Embedding of `engine.SearchResult`: output of one pipeline run. -/
structure SearchResult where
  content : GoStr
  resultCount : Nat
  fromCache : Bool
deriving Repr, DecidableEq

/-- The three `fmt.Errorf` return sites of `Engine.Search` that are reachable
in the embedding (cache I/O never fails), one constructor per site so that the
failures stay distinguishable. -/
inductive Err where
  | searchFailed (msg : GoStr)
  | noSearchResults (query : GoStr)
  | allPagesFailed (query : GoStr)
deriving Repr, DecidableEq

/-- Embedding of `queryHash`: lowercase, trim surrounding whitespace, then the
lowercase-hex SHA-256 digest of the UTF-8 bytes. -/
def queryHash (query : GoStr) : GoStr :=
  hexOfBytes (sha256 (utf8Encode (goTrimSpace (goToLower query))))

/-- One iteration of the `consolidate` loop: skip a page with an error or
whitespace-only content; otherwise write `"\n\n---\n\n"` when the counter is
positive, then `"## "` plus the URL, a blank line, and the trimmed content. -/
def consolidateStep (acc : GoStr × Nat) (p : Scraper.ScrapedPage) : GoStr × Nat :=
  if p.err ≠ none ∨ goTrimSpace p.content = [] then acc
  else
    ((if acc.2 > 0 then acc.1 ++ goStr "\n\n---\n\n" else acc.1) ++
       (goStr "## " ++ p.url ++ goStr "\n\n" ++ goTrimSpace p.content),
     acc.2 + 1)

/-- Embedding of `consolidate`: fold the loop body over the pages, starting
from an empty builder and a zero counter. -/
def consolidate (pages : List Scraper.ScrapedPage) : GoStr × Nat :=
  pages.foldl consolidateStep ([], 0)

/-- Embedding of `countSections`: the number of lines of `content` that start
with `"## "`. -/
def countSections (content : GoStr) : Nat :=
  ((splitLines content).filter (fun line => (goStr "## ").isPrefixOf line)).length

/-- Embedding of `Engine.Search`.  `now` is the single read/write instant of
the call; `searchOutcome` is the oracle standing for the external
`search.Search` call (`.error` for a failed call, `.ok` for its result list);
`fetch` is the per-URL oracle handed to `Scraper.Scrape`.  The rate-limit
sleep between search and scrape has no observable effect in the embedding.
Returns the call outcome together with the cache state after the call. -/
def Search (st : Cache.State) (now : Int) (query : GoStr) (force : Bool)
    (searchOutcome : Except GoStr (List Search.Result))
    (fetch : GoStr → GoStr × Option GoStr) :
    Except Err SearchResult × Cache.State :=
  let hash := queryHash query
  -- 1. Cache check (skip when force is set).
  let cached : Option GoStr :=
    if force then none
    else
      let got := Cache.Get st now hash
      if got.2 then some got.1 else none
  match cached with
  | some content =>
    (.ok ⟨content, countSections content, true⟩, st)
  | none =>
    -- 2. Search — scrape search-engine results page.
    match searchOutcome with
    | .error msg => (.error (.searchFailed msg), st)
    | .ok results =>
      if results.length = 0 then (.error (.noSearchResults query), st)
      else
        -- 3. Scrape all result URLs.
        let urls := results.map (fun r => r.url)
        let pages := Scraper.Scrape fetch urls
        -- 4. Consolidate into a single text block.
        let cr := consolidate pages
        if cr.1 = [] then (.error (.allPagesFailed query), st)
        else
          -- 5. Upsert into cache.
          (.ok ⟨cr.1, cr.2, false⟩, Cache.Set st now hash cr.1)

/-- Embedding of `Engine.ClearCache`: hash the query unless it is empty, then
delegate to `Cache.Clear`. -/
def ClearCache (st : Cache.State) (query : GoStr) : Cache.State :=
  let hash := if query = [] then [] else queryHash query
  Cache.Clear st hash

end Engine

/-- The fetch results `consolidate` keeps: no error and non-blank text. -/
def survivors (pages : List Scraper.ScrapedPage) : List Scraper.ScrapedPage :=
  pages.filter (fun p => decide (p.err = none ∧ goTrimSpace p.content ≠ []))

/-- One consolidated section: a header line naming the source URL, a blank
line, then the trimmed text. -/
def sectionOf (p : Scraper.ScrapedPage) : GoStr :=
  goStr "## " ++ p.url ++ goStr "\n\n" ++ goTrimSpace p.content

/-- Join strings, writing `sep` between successive elements. -/
def joinSep (sep : GoStr) : List GoStr → GoStr
  | [] => []
  | [x] => x
  | x :: xs => x ++ sep ++ joinSep sep xs

/-- Whether some line of `s` starts with `"## "`. -/
def hasSectionLine (s : GoStr) : Bool :=
  (splitLines s).any (fun line => (goStr "## ").isPrefixOf line)

/-! ## Theorems -/

set_option maxRecDepth 4000 in
/-- Known-answer check of the SHA-256 embedding: the digest of the empty
message matches the published test vector. -/
theorem sha256_empty_vector :
    hexOfBytes (sha256 []) =
      goStr "e3b0c44298fc1c149afbf4c8996fb92427ae41e4649b934ca495991b7852b855" := by
  rfl

/-! ## Cache-level lemmas -/

theorem Cache.cacheTTL_pos : 0 < Cache.cacheTTL := by decide

theorem Cache.lookup_append (l1 l2 : Cache.State) (k : GoStr) :
    Cache.lookup (l1 ++ l2) k =
      match Cache.lookup l1 k with
      | some e => some e
      | none => Cache.lookup l2 k := by
  induction l1 with
  | nil => simp [Cache.lookup]
  | cons r rest ih =>
    by_cases h : r.1 = k <;> simp [Cache.lookup, h, ih]

theorem Cache.lookup_map_update (st : Cache.State) (now : Int) (k v : GoStr) :
    Cache.lookup (st.map (fun r => if r.1 = k then (r.1, ⟨v, now⟩) else r)) k =
      match Cache.lookup st k with
      | some _ => some ⟨v, now⟩
      | none => none := by
  induction st with
  | nil => simp [Cache.lookup]
  | cons r rest ih =>
    by_cases h : r.1 = k
    · simp [Cache.lookup, h]
    · simp [Cache.lookup, h, ih]

theorem Cache.lookup_map_update_other (st : Cache.State) (now : Int) (k v k' : GoStr)
    (hk : k' ≠ k) :
    Cache.lookup (st.map (fun r => if r.1 = k then (r.1, ⟨v, now⟩) else r)) k' =
      Cache.lookup st k' := by
  induction st with
  | nil => simp [Cache.lookup]
  | cons r rest ih =>
    rw [List.map_cons]
    simp only [Cache.lookup]
    by_cases h : r.1 = k
    · have h1 : ¬r.1 = k' := fun he => hk (he ▸ h ▸ rfl)
      rw [if_pos h]
      simp only []
      rw [if_neg h1, if_neg h1, ih]
    · rw [if_neg h]
      by_cases h2 : r.1 = k'
      · rw [if_pos h2, if_pos h2]
      · rw [if_neg h2, if_neg h2, ih]

theorem Cache.lookup_set_self (st : Cache.State) (now : Int) (k v : GoStr) :
    Cache.lookup (Cache.Set st now k v) k = some ⟨v, now⟩ := by
  unfold Cache.Set
  split
  case isTrue hs =>
    rw [Cache.lookup_map_update]
    cases hl : Cache.lookup st k with
    | none => rw [hl] at hs; simp at hs
    | some e => rfl
  case isFalse hs =>
    rw [Cache.lookup_append]
    cases hl : Cache.lookup st k with
    | none => simp [Cache.lookup]
    | some e => rw [hl] at hs; simp at hs

theorem Cache.lookup_set_other (st : Cache.State) (now : Int) (k v k' : GoStr)
    (hk : k' ≠ k) : Cache.lookup (Cache.Set st now k v) k' = Cache.lookup st k' := by
  unfold Cache.Set
  split
  case isTrue hs => exact Cache.lookup_map_update_other st now k v k' hk
  case isFalse hs =>
    rw [Cache.lookup_append]
    cases hl : Cache.lookup st k' with
    | some e => simp
    | none =>
      have hk2 : ¬k = k' := fun he => hk he.symm
      simp [Cache.lookup, hk2]

theorem Cache.lookup_clear_self (st : Cache.State) (k : GoStr) :
    Cache.lookup (Cache.Clear st k) k = none := by
  unfold Cache.Clear
  split
  · simp [Cache.lookup]
  · induction st with
    | nil => simp [Cache.lookup]
    | cons r rest ih =>
      rw [List.filter_cons]
      by_cases h : r.1 = k
      · rw [if_neg (by simp [h])]
        exact ih
      · rw [if_pos (by simp [h])]
        simp only [Cache.lookup]
        rw [if_neg h]
        exact ih

theorem Cache.lookup_clear_other (st : Cache.State) (k k' : GoStr)
    (hk : k' ≠ k) :
    k ≠ [] → Cache.lookup (Cache.Clear st k) k' = Cache.lookup st k' := by
  intro hne
  unfold Cache.Clear
  rw [if_neg hne]
  induction st with
  | nil => simp
  | cons r rest ih =>
    rw [List.filter_cons]
    by_cases h : r.1 = k
    · rw [if_neg (by simp [h])]
      have h1 : ¬r.1 = k' := fun he => hk (he ▸ h ▸ rfl)
      rw [ih]
      simp [Cache.lookup, h1]
    · rw [if_pos (by simp [h])]
      simp only [Cache.lookup]
      split
      · rfl
      · exact ih

theorem Cache.clear_idem (st : Cache.State) (k : GoStr) :
    Cache.Clear (Cache.Clear st k) k = Cache.Clear st k := by
  unfold Cache.Clear
  split
  · rfl
  · simp [List.filter_filter]

/-- The result of `Get` only depends on the row under the queried key. -/
theorem Cache.Get_congr (st1 st2 : Cache.State) (now : Int) (k : GoStr)
    (h : Cache.lookup st1 k = Cache.lookup st2 k) :
    Cache.Get st1 now k = Cache.Get st2 now k := by
  unfold Cache.Get
  rw [h]

theorem hexOfBytes_length (bs : List Nat) : (hexOfBytes bs).length = 2 * bs.length := by
  induction bs with
  | nil => rfl
  | cons b rest ih =>
    simp only [hexOfBytes, List.map_cons, List.flatten_cons, List.length_append,
      List.length_cons] at ih ⊢
    simp [hexByte] at ih ⊢
    omega

theorem sha256_length (msg : List Nat) : (sha256 msg).length = 32 := by
  simp [sha256, wordBytes]

theorem queryHash_length (q : GoStr) : (Engine.queryHash q).length = 64 := by
  rw [Engine.queryHash, hexOfBytes_length, sha256_length]

theorem queryHash_ne_nil (q : GoStr) : Engine.queryHash q ≠ [] := by
  intro h
  have := queryHash_length q
  rw [h] at this
  simp at this

/-- C1: `Get` immediately after `Set` returns the stored content with a hit;
a row whose age exceeds the 24-hour TTL reports a miss even though the row
still exists; an absent key reports a miss; in general `Get` hits exactly when
the row exists and `now - updatedAt ≤ TTL`, with staleness evaluated at the
read instant. -/
theorem C1_get_set_ttl (st : Cache.State) (now now2 : Int) (k v : GoStr) :
    Cache.Get (Cache.Set st now k v) now k = (v, true) ∧
    (∀ e, Cache.lookup st k = some e → now2 - e.updatedAt > Cache.cacheTTL →
      Cache.Get st now2 k = ([], false) ∧ Cache.lookup st k ≠ none) ∧
    (Cache.lookup st k = none → Cache.Get st now2 k = ([], false)) ∧
    ((Cache.Get st now2 k).2 = true ↔
      ∃ e, Cache.lookup st k = some e ∧ now2 - e.updatedAt ≤ Cache.cacheTTL) := by
  refine ⟨?_, ?_, ?_, ?_⟩
  · unfold Cache.Get
    rw [Cache.lookup_set_self]
    show (if now - now > Cache.cacheTTL then (([] : GoStr), false) else (v, true)) = (v, true)
    have h0 : ¬now - now > Cache.cacheTTL := by
      rw [sub_self]
      exact not_lt.mpr (le_of_lt Cache.cacheTTL_pos)
    rw [if_neg h0]
  · intro e he hgt
    refine ⟨?_, by rw [he]; exact fun h => Option.noConfusion h⟩
    unfold Cache.Get
    rw [he]
    show (if now2 - e.updatedAt > Cache.cacheTTL then (([] : GoStr), false)
          else (e.content, true)) = ([], false)
    rw [if_pos hgt]
  · intro h
    unfold Cache.Get
    rw [h]
  · unfold Cache.Get
    cases hl : Cache.lookup st k with
    | none => simp
    | some e =>
      show (if now2 - e.updatedAt > Cache.cacheTTL then (([] : GoStr), false)
            else (e.content, true)).2 = true ↔ _
      constructor
      · intro h2
        by_cases hgt : now2 - e.updatedAt > Cache.cacheTTL
        · rw [if_pos hgt] at h2
          simp at h2
        · exact ⟨e, rfl, not_lt.mp hgt⟩
      · rintro ⟨e', he', hle⟩
        injection he' with hee
        subst hee
        rw [if_neg (not_lt.mpr hle)]

/-- Witness for C1 at a concrete store, key, and pair of read instants. -/
theorem C1_witness :
    Cache.Get (Cache.Set [(goStr "k", ⟨goStr "v0", 0⟩)] 5 (goStr "k") (goStr "v")) 5
        (goStr "k") = (goStr "v", true) ∧
    Cache.Get [(goStr "k", ⟨goStr "v0", 0⟩)] 100000000000000 (goStr "k") = ([], false) := by
  refine ⟨(C1_get_set_ttl [(goStr "k", ⟨goStr "v0", 0⟩)] 5 5 (goStr "k") (goStr "v")).1, ?_⟩
  exact ((C1_get_set_ttl [(goStr "k", ⟨goStr "v0", 0⟩)] 5 100000000000000 (goStr "k")
    (goStr "v")).2.1 ⟨goStr "v0", 0⟩ (by decide) (by decide)).1

/-- C7: evicting a non-empty query deletes exactly the entry under that
query's normalized key — every other key's row and hit status are unchanged,
so a differently-keyed prior entry still hits — while evicting the empty query
deletes every entry; both succeed with no matching entry present, and
repeating an eviction is a no-op. -/
theorem C7_evict (st : Cache.State) (now : Int) (q : GoStr) (hq : q ≠ []) :
    Cache.lookup (Engine.ClearCache st q) (Engine.queryHash q) = none ∧
    (∀ k, k ≠ Engine.queryHash q →
      Cache.lookup (Engine.ClearCache st q) k = Cache.lookup st k ∧
      Cache.Get (Engine.ClearCache st q) now k = Cache.Get st now k) ∧
    Engine.ClearCache st [] = [] ∧
    Engine.ClearCache (Engine.ClearCache st q) q = Engine.ClearCache st q := by
  have hcl : Engine.ClearCache st q = Cache.Clear st (Engine.queryHash q) := by
    unfold Engine.ClearCache
    rw [if_neg hq]
  refine ⟨?_, ?_, ?_, ?_⟩
  · rw [hcl]
    exact Cache.lookup_clear_self st (Engine.queryHash q)
  · intro k hk
    have h1 : Cache.lookup (Engine.ClearCache st q) k = Cache.lookup st k := by
      rw [hcl]
      exact Cache.lookup_clear_other st (Engine.queryHash q) k hk (queryHash_ne_nil q)
    exact ⟨h1, Cache.Get_congr _ _ now k h1⟩
  · unfold Engine.ClearCache Cache.Clear
    simp
  · rw [hcl]
    unfold Engine.ClearCache
    rw [if_neg hq]
    exact Cache.clear_idem st (Engine.queryHash q)

set_option maxRecDepth 40000 in
/-- Witness for C7: evicting `"q1"` from a store holding entries for `"q1"`
and `"q2"` removes the first and leaves the second a hit. -/
theorem C7_witness :
    Cache.lookup
      (Engine.ClearCache
        [(Engine.queryHash (goStr "q1"), ⟨goStr "c1", 0⟩),
         (Engine.queryHash (goStr "q2"), ⟨goStr "c2", 0⟩)] (goStr "q1"))
      (Engine.queryHash (goStr "q1")) = none ∧
    Cache.lookup
      (Engine.ClearCache
        [(Engine.queryHash (goStr "q1"), ⟨goStr "c1", 0⟩),
         (Engine.queryHash (goStr "q2"), ⟨goStr "c2", 0⟩)] (goStr "q1"))
      (Engine.queryHash (goStr "q2")) =
      some ⟨goStr "c2", 0⟩ := by
  have h := C7_evict
    [(Engine.queryHash (goStr "q1"), ⟨goStr "c1", 0⟩),
     (Engine.queryHash (goStr "q2"), ⟨goStr "c2", 0⟩)] 0 (goStr "q1") (by decide)
  refine ⟨h.1, ?_⟩
  rw [(h.2.1 (Engine.queryHash (goStr "q2")) (by decide)).1]
  decide

/-- C10: `ClearCache` flushes the whole store only for the exactly-empty
query; any non-empty query — a whitespace-only one included — is hashed and
only that single key is deleted, and the key for `" "` coincides with the key
`Search("")` would use, so `ClearCache(" ")` does not clear the store. -/
theorem C10_clearcache_whitespace (st : Cache.State) :
    Engine.ClearCache st [] = [] ∧
    (∀ q, q ≠ [] → Engine.ClearCache st q = Cache.Clear st (Engine.queryHash q)) ∧
    Engine.queryHash (goStr " ") = Engine.queryHash [] ∧
    Cache.lookup (Engine.ClearCache st (goStr " ")) (Engine.queryHash []) = none ∧
    (∀ k, k ≠ Engine.queryHash [] →
      Cache.lookup (Engine.ClearCache st (goStr " ")) k = Cache.lookup st k) := by
  have hsp : Engine.queryHash (goStr " ") = Engine.queryHash [] := by
    have h : goTrimSpace (goToLower (goStr " ")) = goTrimSpace (goToLower []) := by decide
    unfold Engine.queryHash
    rw [h]
  have hcl : Engine.ClearCache st (goStr " ") = Cache.Clear st (Engine.queryHash []) := by
    unfold Engine.ClearCache
    rw [if_neg (by decide : ¬goStr " " = []), hsp]
  refine ⟨?_, ?_, hsp, ?_, ?_⟩
  · unfold Engine.ClearCache Cache.Clear
    simp
  · intro q hq
    unfold Engine.ClearCache
    rw [if_neg hq]
  · rw [hcl]
    exact Cache.lookup_clear_self st (Engine.queryHash [])
  · intro k hk
    rw [hcl]
    exact Cache.lookup_clear_other st (Engine.queryHash []) k hk (queryHash_ne_nil [])

set_option maxRecDepth 40000 in
/-- Witness for C10: with entries under the keys of `""` and of `"zz"`,
clearing `" "` removes the first and keeps the second. -/
theorem C10_witness :
    Cache.lookup
      (Engine.ClearCache
        [(Engine.queryHash [], ⟨goStr "c0", 0⟩),
         (Engine.queryHash (goStr "zz"), ⟨goStr "c1", 0⟩)] (goStr " "))
      (Engine.queryHash []) = none ∧
    Cache.lookup
      (Engine.ClearCache
        [(Engine.queryHash [], ⟨goStr "c0", 0⟩),
         (Engine.queryHash (goStr "zz"), ⟨goStr "c1", 0⟩)] (goStr " "))
      (Engine.queryHash (goStr "zz")) = some ⟨goStr "c1", 0⟩ := by
  have h := C10_clearcache_whitespace
    [(Engine.queryHash [], ⟨goStr "c0", 0⟩),
     (Engine.queryHash (goStr "zz"), ⟨goStr "c1", 0⟩)]
  refine ⟨h.2.2.2.1, ?_⟩
  rw [h.2.2.2.2 (Engine.queryHash (goStr "zz")) (by decide)]
  decide

/-! ### Consolidation lemmas -/

theorem joinSep_cons_flatten (sep x : GoStr) (xs : List GoStr) :
    joinSep sep (x :: xs) = x ++ (xs.map (fun y => sep ++ y)).flatten := by
  induction xs generalizing x with
  | nil => simp [joinSep]
  | cons y ys ih =>
    rw [show joinSep sep (x :: y :: ys) = x ++ sep ++ joinSep sep (y :: ys) from rfl, ih]
    simp [List.append_assoc]

theorem consolidate_go (pages : List Scraper.ScrapedPage) (b : GoStr) (n : Nat)
    (hn : 0 < n) :
    pages.foldl Engine.consolidateStep (b, n) =
      (b ++ ((survivors pages).map (fun p => goStr "\n\n---\n\n" ++ sectionOf p)).flatten,
       n + (survivors pages).length) := by
  induction pages generalizing b n with
  | nil => simp [survivors]
  | cons p rest ih =>
    rw [List.foldl_cons]
    by_cases hp : p.err = none ∧ goTrimSpace p.content ≠ []
    · have hcond : ¬(p.err ≠ none ∨ goTrimSpace p.content = []) :=
        fun hor => hor.elim (fun hh => hh hp.1) hp.2
      rw [show Engine.consolidateStep (b, n) p =
            ((if n > 0 then b ++ goStr "\n\n---\n\n" else b) ++
               (goStr "## " ++ p.url ++ goStr "\n\n" ++ goTrimSpace p.content), n + 1) by
          unfold Engine.consolidateStep; rw [if_neg hcond]]
      rw [if_pos hn, ih _ _ (Nat.succ_pos n)]
      have hsv : survivors (p :: rest) = p :: survivors rest := by
        unfold survivors
        rw [List.filter_cons, if_pos (by simp [hp.1, hp.2])]
      rw [hsv]
      simp [sectionOf, List.append_assoc]
      omega
    · have hcond : p.err ≠ none ∨ goTrimSpace p.content = [] := by
        by_cases h1 : p.err = none
        · right
          by_contra h2
          exact hp ⟨h1, h2⟩
        · left
          exact h1
      rw [show Engine.consolidateStep (b, n) p = (b, n) by
          unfold Engine.consolidateStep; rw [if_pos hcond]]
      rw [ih _ _ hn]
      have hsv : survivors (p :: rest) = survivors rest := by
        unfold survivors
        rw [List.filter_cons, if_neg (by simp; intro h1; simpa [h1] using hcond)]
      rw [hsv]

/-- The function `consolidate` filters to the survivors, in order, and joins one section
per survivor with the fixed divider; the count is the number of survivors. -/
theorem consolidate_eq (pages : List Scraper.ScrapedPage) :
    Engine.consolidate pages =
      (joinSep (goStr "\n\n---\n\n") ((survivors pages).map sectionOf),
       (survivors pages).length) := by
  unfold Engine.consolidate
  induction pages with
  | nil => rfl
  | cons p rest ih =>
    rw [List.foldl_cons]
    by_cases hp : p.err = none ∧ goTrimSpace p.content ≠ []
    · have hcond : ¬(p.err ≠ none ∨ goTrimSpace p.content = []) :=
        fun hor => hor.elim (fun hh => hh hp.1) hp.2
      have hsv : survivors (p :: rest) = p :: survivors rest := by
        unfold survivors
        rw [List.filter_cons, if_pos (by simp [hp.1, hp.2])]
      rw [show Engine.consolidateStep ([], 0) p = (sectionOf p, 1) by
          unfold Engine.consolidateStep
          rw [if_neg hcond]
          simp [sectionOf]]
      rw [consolidate_go rest (sectionOf p) 1 (by omega), hsv]
      rw [List.map_cons, joinSep_cons_flatten]
      simp [List.map_map, Function.comp]
      exact ⟨rfl, Nat.add_comm 1 _⟩
    · have hcond : p.err ≠ none ∨ goTrimSpace p.content = [] := by
        by_cases h1 : p.err = none
        · right
          by_contra h2
          exact hp ⟨h1, h2⟩
        · left
          exact h1
      have hsv : survivors (p :: rest) = survivors rest := by
        unfold survivors
        rw [List.filter_cons, if_neg (by simp; intro h1; simpa [h1] using hcond)]
      rw [show Engine.consolidateStep ([], 0) p = ([], 0) by
          unfold Engine.consolidateStep; rw [if_pos hcond]]
      rw [hsv] at *
      exact ih

/-- C4: `consolidate` drops exactly the errored or whitespace-only entries,
keeps the survivors in their relative order, heads each included text with a
`"## <source URL>"` line plus a blank line, and separates successive sections
with `"---"` surrounded by blank lines; on the two-survivor example it yields
exactly the expected document with count 2. -/
theorem C4_consolidate (pages : List Scraper.ScrapedPage) :
    Engine.consolidate pages =
      (joinSep (goStr "\n\n---\n\n") ((survivors pages).map sectionOf),
       (survivors pages).length) ∧
    Engine.consolidate
      [⟨goStr "u1", goStr "Goroutines...", none⟩,
       ⟨goStr "u2", goStr "Table-driven tests...", none⟩] =
      (goStr "## u1\n\nGoroutines...\n\n---\n\n## u2\n\nTable-driven tests...", 2) :=
  ⟨consolidate_eq pages, by decide⟩

theorem scrapedPage_partition (pages : List Scraper.ScrapedPage) :
    pages.countP (fun p => decide (p.err ≠ none)) +
      pages.countP (fun p => decide (p.err = none ∧ goTrimSpace p.content = [])) +
      pages.countP (fun p => decide (p.err = none ∧ goTrimSpace p.content ≠ [])) =
      pages.length := by
  induction pages with
  | nil => rfl
  | cons p rest ih =>
    by_cases h1 : p.err = none <;> by_cases h2 : goTrimSpace p.content = [] <;>
      simp [List.countP_cons, h1, h2] at ih ⊢ <;> omega

/-- C5: `Scrape` returns one result per input URL, at the same index and
carrying that URL, tagged with the fetch outcome — no URL skipped, retried or
reordered — and the consolidation count is the number of URLs minus the failed
fetches minus the error-free but whitespace-only ones. -/
theorem C5_scrape (fetch : GoStr → GoStr × Option GoStr) (urls : List GoStr) :
    (Scraper.Scrape fetch urls).length = urls.length ∧
    (∀ i : Nat, ((Scraper.Scrape fetch urls)[i]?.map Scraper.ScrapedPage.url) = urls[i]?) ∧
    (Engine.consolidate (Scraper.Scrape fetch urls)).2 =
      urls.length -
        (Scraper.Scrape fetch urls).countP (fun p => decide (p.err ≠ none)) -
        (Scraper.Scrape fetch urls).countP
          (fun p => decide (p.err = none ∧ goTrimSpace p.content = [])) := by
  have hN : (Scraper.Scrape fetch urls).length = urls.length := by
    simp [Scraper.Scrape]
  have hidx : ∀ i : Nat,
      ((Scraper.Scrape fetch urls)[i]?.map Scraper.ScrapedPage.url) = urls[i]? := by
    intro i
    unfold Scraper.Scrape
    rw [List.getElem?_map]
    cases urls[i]? <;> rfl
  have hcount : (Engine.consolidate (Scraper.Scrape fetch urls)).2 =
      urls.length -
        (Scraper.Scrape fetch urls).countP (fun p => decide (p.err ≠ none)) -
        (Scraper.Scrape fetch urls).countP
          (fun p => decide (p.err = none ∧ goTrimSpace p.content = [])) := by
    rw [consolidate_eq]
    have hlen : (survivors (Scraper.Scrape fetch urls)).length =
        (Scraper.Scrape fetch urls).countP
          (fun p => decide (p.err = none ∧ goTrimSpace p.content ≠ [])) := by
      unfold survivors
      rw [List.countP_eq_length_filter]
    have hpart := scrapedPage_partition (Scraper.Scrape fetch urls)
    simp only []
    omega
  exact ⟨hN, hidx, hcount⟩

theorem consolidate_all_dropped (pages : List Scraper.ScrapedPage)
    (h : ∀ p ∈ pages, p.err ≠ none ∨ goTrimSpace p.content = []) :
    Engine.consolidate pages = ([], 0) := by
  rw [consolidate_eq]
  have hs : survivors pages = [] := by
    unfold survivors
    rw [List.filter_eq_nil_iff]
    intro p hp
    simp only [decide_eq_true_eq, not_and, not_not]
    intro h1
    rcases h p hp with h2 | h2
    · exact absurd h1 h2
    · exact h2
  rw [hs]
  rfl

/-- C2: with `force` set, `Search` reads nothing from the cache — its outcome
is the same for every cache state and read instant — and a successful result
is never marked `fromCache`; it always comes from running discovery and the
fetch/consolidate phase on the discovered URLs. -/
theorem C2_force_bypass (st st2 : Cache.State) (now now2 : Int) (q : GoStr)
    (o : Except GoStr (List Search.Result)) (fetch : GoStr → GoStr × Option GoStr) :
    (Engine.Search st now q true o fetch).1 = (Engine.Search st2 now2 q true o fetch).1 ∧
    ∀ r, (Engine.Search st now q true o fetch).1 = .ok r →
      r.fromCache = false ∧
      ∃ results, o = .ok results ∧ results ≠ [] ∧
        r.content =
          (Engine.consolidate (Scraper.Scrape fetch (results.map (fun r => r.url)))).1 ∧
        r.resultCount =
          (Engine.consolidate (Scraper.Scrape fetch (results.map (fun r => r.url)))).2 := by
  cases o with
  | error msg =>
    refine ⟨rfl, ?_⟩
    intro r hr
    simp [Engine.Search] at hr
  | ok results =>
    by_cases h0 : results.length = 0
    · refine ⟨by simp [Engine.Search, h0], ?_⟩
      intro r hr
      simp [Engine.Search, h0] at hr
    · by_cases hc :
        (Engine.consolidate (Scraper.Scrape fetch (results.map (fun r => r.url)))).1 = []
      · refine ⟨by simp [Engine.Search, h0, hc], ?_⟩
        intro r hr
        simp [Engine.Search, h0, hc] at hr
      · refine ⟨by simp [Engine.Search, h0, hc], ?_⟩
        intro r hr
        simp only [Engine.Search, h0, hc, if_false, if_true] at hr
        simp at hr
        refine ⟨?_, results, rfl, fun he => h0 (by rw [he]; rfl), ?_, ?_⟩ <;>
          rw [← hr]

/-- C3: when the run reaches the fetch phase and every fetched page errored or
yielded whitespace-only text, `Search` fails with the dedicated all-pages
error and returns the cache state untouched — no entry is written. -/
theorem C3_zero_survivors (st : Cache.State) (now : Int) (q : GoStr) (force : Bool)
    (results : List Search.Result) (fetch : GoStr → GoStr × Option GoStr)
    (hmiss : force = true ∨ (Cache.Get st now (Engine.queryHash q)).2 = false)
    (hres : results ≠ [])
    (hall : ∀ p ∈ Scraper.Scrape fetch (results.map (fun r => r.url)),
      p.err ≠ none ∨ goTrimSpace p.content = []) :
    Engine.Search st now q force (.ok results) fetch =
      (.error (.allPagesFailed q), st) := by
  have hcr := consolidate_all_dropped _ hall
  have h0 : ¬results.length = 0 := by
    simpa [List.length_eq_zero] using hres
  by_cases hf : force = true
  · subst hf
    simp [Engine.Search, h0, hcr]
  · have hf0 : force = false := by simpa using hf
    subst hf0
    rcases hmiss with hm | hm
    · exact absurd hm (by simp)
    · simp [Engine.Search, h0, hcr, hm]

/-- Witness for C3: one discovered URL whose fetch fails; the run fails with
the all-pages error and the (empty) cache state is returned unchanged. -/
theorem C3_witness :
    Engine.Search [] 0 (goStr "q") true (.ok [⟨goStr "u", goStr "t"⟩])
        (fun _u => ([], some (goStr "boom"))) =
      (.error (.allPagesFailed (goStr "q")), []) :=
  C3_zero_survivors [] 0 (goStr "q") true [⟨goStr "u", goStr "t"⟩]
    (fun _u => ([], some (goStr "boom"))) (Or.inl rfl) (by decide) (by decide)

/-- C8: when discovery succeeds with an empty candidate list on a run that
consults it, `Search` fails with the no-results error, leaves the cache
unchanged, and never enters the fetch phase — the outcome is independent of
the fetch oracle. -/
theorem C8_empty_discovery (st : Cache.State) (now : Int) (q : GoStr) (force : Bool)
    (fetch : GoStr → GoStr × Option GoStr)
    (hmiss : force = true ∨ (Cache.Get st now (Engine.queryHash q)).2 = false) :
    Engine.Search st now q force (.ok []) fetch = (.error (.noSearchResults q), st) := by
  by_cases hf : force = true
  · subst hf
    simp [Engine.Search]
  · have hf0 : force = false := by simpa using hf
    subst hf0
    rcases hmiss with hm | hm
    · exact absurd hm (by simp)
    · simp [Engine.Search, hm]

/-- Witness for C8: an empty discovery result on an empty cache with
`force = false` fails with the no-results error and no fetch. -/
theorem C8_witness :
    Engine.Search [] 0 (goStr "q") false (.ok []) (fun _u => (goStr "text", none)) =
      (.error (.noSearchResults (goStr "q")), []) :=
  C8_empty_discovery [] 0 (goStr "q") false (fun _u => (goStr "text", none))
    (Or.inr (by decide))

/-- Witness for C2: a forced search over a non-empty cache succeeds with a
result not marked as from the cache and equal to the consolidated fetch. -/
theorem C2_witness :
    (⟨goStr "## u\n\nhello", 1, false⟩ : Engine.SearchResult).fromCache = false ∧
    ∃ results,
      (Except.ok [(⟨goStr "u", goStr "t"⟩ : Search.Result)] :
          Except GoStr (List Search.Result)) = .ok results ∧
      results ≠ [] ∧
      (⟨goStr "## u\n\nhello", 1, false⟩ : Engine.SearchResult).content =
        (Engine.consolidate (Scraper.Scrape (fun _u => (goStr "hello", none))
          (results.map (fun r => r.url)))).1 ∧
      (⟨goStr "## u\n\nhello", 1, false⟩ : Engine.SearchResult).resultCount =
        (Engine.consolidate (Scraper.Scrape (fun _u => (goStr "hello", none))
          (results.map (fun r => r.url)))).2 :=
  (C2_force_bypass [(goStr "k", ⟨goStr "c", 0⟩)] [] 0 0 (goStr "q")
      (.ok [⟨goStr "u", goStr "t"⟩]) (fun _u => (goStr "hello", none))).2
    ⟨goStr "## u\n\nhello", 1, false⟩ rfl

/-! ## Normalization lemmas for the cache key -/

theorem goCharToLower_of_space (c : Char) (h : goIsSpace c = true) :
    goCharToLower c = c := by
  have hmem : c.toNat ∈ ([9, 10, 11, 12, 13, 32, 0x85, 0xA0, 0x1680,
      0x2000, 0x2001, 0x2002, 0x2003, 0x2004, 0x2005, 0x2006, 0x2007,
      0x2008, 0x2009, 0x200A, 0x2028, 0x2029, 0x202F, 0x205F, 0x3000] : List Nat) := by
    simpa [goIsSpace] using h
  unfold goCharToLower
  rw [if_neg]
  rintro ⟨h1, h2⟩
  have hA : 65 ≤ c.toNat := h1
  have hZ : c.toNat ≤ 90 := h2
  simp only [List.mem_cons, List.not_mem_nil, or_false] at hmem
  omega

theorem goToLower_of_all_space (a : GoStr) (h : ∀ c ∈ a, goIsSpace c = true) :
    goToLower a = a := by
  unfold goToLower
  induction a with
  | nil => rfl
  | cons c a' ih =>
    rw [List.map_cons, goCharToLower_of_space c (h c (by simp))]
    rw [ih (fun x hx => h x (by simp [hx]))]

theorem dropWhile_append_all (p : Char → Bool) (a y : List Char)
    (h : ∀ c ∈ a, p c = true) : (a ++ y).dropWhile p = y.dropWhile p := by
  induction a with
  | nil => rfl
  | cons c a' ih =>
    rw [List.cons_append, List.dropWhile_cons, h c (by simp)]
    exact ih (fun x hx => h x (by simp [hx]))

theorem dropWhile_append_ne_nil (p : Char → Bool) (y b : List Char)
    (h : y.dropWhile p ≠ []) : (y ++ b).dropWhile p = y.dropWhile p ++ b := by
  induction y with
  | nil => simp [List.dropWhile] at h
  | cons c y' ih =>
    rw [List.cons_append, List.dropWhile_cons, List.dropWhile_cons] at *
    by_cases hc : p c = true
    · rw [hc] at h ⊢
      simp only [if_true] at h ⊢
      exact ih h
    · have hc0 : p c = false := by simpa using hc
      rw [hc0] at h ⊢
      simp [List.cons_append]

theorem goTrimSpace_append_left (a y : GoStr) (h : ∀ c ∈ a, goIsSpace c = true) :
    goTrimSpace (a ++ y) = goTrimSpace y := by
  unfold goTrimSpace
  rw [dropWhile_append_all goIsSpace a y h]

theorem goTrimSpace_append_right (y b : GoStr) (h : ∀ c ∈ b, goIsSpace c = true) :
    goTrimSpace (y ++ b) = goTrimSpace y := by
  by_cases hy : y.dropWhile goIsSpace = []
  · have hys : ∀ c ∈ y, goIsSpace c = true := List.dropWhile_eq_nil_iff.mp hy
    have h1 : (y ++ b).dropWhile goIsSpace = [] := by
      rw [List.dropWhile_eq_nil_iff]
      intro c hc
      rcases List.mem_append.mp hc with hc | hc
      · exact hys c hc
      · exact h c hc
    unfold goTrimSpace
    rw [h1, hy]
  · unfold goTrimSpace
    rw [dropWhile_append_ne_nil goIsSpace y b hy, List.reverse_append]
    rw [dropWhile_append_all goIsSpace b.reverse _
      (fun c hc => h c (List.mem_reverse.mp hc))]

theorem queryHash_eq_of_normalized (q1 q2 : GoStr)
    (h : goTrimSpace (goToLower q1) = goTrimSpace (goToLower q2)) :
    Engine.queryHash q1 = Engine.queryHash q2 := by
  unfold Engine.queryHash
  rw [h]

theorem hexDigit_mem (n : Nat) (h : n < 16) :
    hexDigit n ∈ goStr "0123456789abcdef" := by
  interval_cases n <;> decide

theorem hexOfBytes_mem (bs : List Nat) :
    ∀ c ∈ hexOfBytes bs, c ∈ goStr "0123456789abcdef" := by
  intro c hc
  unfold hexOfBytes at hc
  rw [List.mem_flatten] at hc
  obtain ⟨l, hl, hcl⟩ := hc
  rw [List.mem_map] at hl
  obtain ⟨b, _, rfl⟩ := hl
  unfold hexByte at hcl
  rcases (by simpa using hcl : c = hexDigit (b / 16 % 16) ∨ c = hexDigit (b % 16)) with
    rfl | rfl
  · exact hexDigit_mem _ (Nat.mod_lt _ (by omega))
  · exact hexDigit_mem _ (Nat.mod_lt _ (by omega))

/-- C6: queries that differ only in letter case or in leading/trailing
whitespace produce the same cache key; the key is a fixed-length (64
character) lowercase-hexadecimal SHA-256 digest of the normalized query, so
the raw query text — having any other length — is never itself the key. -/
theorem C6_canonical_key :
    (∀ q1 q2 pre suf : GoStr, (∀ c ∈ pre, goIsSpace c = true) →
      (∀ c ∈ suf, goIsSpace c = true) → goToLower q1 = goToLower q2 →
      Engine.queryHash (pre ++ q1 ++ suf) = Engine.queryHash q2) ∧
    (∀ q : GoStr, (Engine.queryHash q).length = 64 ∧
      (∀ c ∈ Engine.queryHash q, c ∈ goStr "0123456789abcdef") ∧
      (q.length ≠ 64 → Engine.queryHash q ≠ q)) := by
  constructor
  · intro q1 q2 pre suf hpre hsuf hlow
    apply queryHash_eq_of_normalized
    have hsplit : goToLower (pre ++ q1 ++ suf) = pre ++ (goToLower q1 ++ suf) := by
      unfold goToLower at *
      rw [List.map_append, List.map_append]
      rw [show pre.map goCharToLower = pre from goToLower_of_all_space pre hpre]
      rw [show suf.map goCharToLower = suf from goToLower_of_all_space suf hsuf]
      rw [List.append_assoc]
    rw [hsplit, goTrimSpace_append_left pre _ hpre,
      goTrimSpace_append_right _ suf hsuf, hlow]
  · intro q
    refine ⟨queryHash_length q, hexOfBytes_mem _, ?_⟩
    intro hlen he
    exact hlen (he ▸ queryHash_length q)

set_option maxRecDepth 40000 in
/-- Witness for C6: `" GOlang"` and `"golang"` share a key; the key of `"x"`
is 64 hex characters and differs from the raw query. -/
theorem C6_witness :
    Engine.queryHash (goStr " " ++ goStr "GOlang" ++ []) = Engine.queryHash (goStr "golang") ∧
    (Engine.queryHash (goStr "x")).length = 64 ∧
    Engine.queryHash (goStr "x") ≠ goStr "x" := by
  refine ⟨C6_canonical_key.1 (goStr "GOlang") (goStr "golang") (goStr " ") []
    (by decide) (by decide) (by decide), (C6_canonical_key.2 (goStr "x")).1,
    (C6_canonical_key.2 (goStr "x")).2.2 (by decide)⟩

/-! ### Line counting lemmas -/

theorem splitLines_ne_nil (s : GoStr) : splitLines s ≠ [] := by
  induction s with
  | nil => simp [splitLines]
  | cons c rest _ =>
    simp only [splitLines]
    by_cases hc : c = '\n' <;> simp [hc]

theorem splitLines_append (a b : GoStr) :
    splitLines (a ++ '\n' :: b) = splitLines a ++ splitLines b := by
  induction a with
  | nil => simp [splitLines]
  | cons c a' ih =>
    rw [List.cons_append]
    by_cases hc : c = '\n'
    · subst hc
      rw [show splitLines ('\n' :: (a' ++ '\n' :: b)) =
          [] :: splitLines (a' ++ '\n' :: b) from rfl]
      rw [show splitLines ('\n' :: a') = [] :: splitLines a' from rfl]
      rw [ih]
      rfl
    · obtain ⟨l, ls, hls⟩ := List.exists_cons_of_ne_nil (splitLines_ne_nil a')
      simp only [splitLines]
      rw [if_neg hc, if_neg hc, ih, hls]
      simp

theorem splitLines_no_newline (s : GoStr) (h : '\n' ∉ s) : splitLines s = [s] := by
  induction s with
  | nil => rfl
  | cons c rest ih =>
    have hc : ¬c = '\n' := fun he => h (by simp [he])
    have hr : '\n' ∉ rest := fun hm => h (by simp [hm])
    simp only [splitLines]
    rw [if_neg hc, ih hr]
    rfl

theorem countSections_append (a b : GoStr) :
    Engine.countSections (a ++ '\n' :: b) =
      Engine.countSections a + Engine.countSections b := by
  unfold Engine.countSections
  rw [splitLines_append, List.filter_append, List.length_append]

theorem countSections_newline_cons (z : GoStr) :
    Engine.countSections ('\n' :: z) = Engine.countSections z := by
  have h := countSections_append [] z
  simpa [show Engine.countSections [] = 0 from rfl] using h

theorem countSections_sep (x y : GoStr) :
    Engine.countSections (x ++ goStr "\n\n---\n\n" ++ y) =
      Engine.countSections x + Engine.countSections y := by
  have e1 : x ++ goStr "\n\n---\n\n" ++ y =
      x ++ '\n' :: ('\n' :: (goStr "---" ++ '\n' :: ('\n' :: y))) := by
    rw [List.append_assoc]
    rfl
  rw [e1, countSections_append, countSections_newline_cons, countSections_append,
    countSections_newline_cons]
  have h3 : Engine.countSections (goStr "---") = 0 := by decide
  rw [h3]
  omega

theorem countSections_section (url t : GoStr) (h : '\n' ∉ url) :
    Engine.countSections (goStr "## " ++ url ++ goStr "\n\n" ++ t) =
      1 + Engine.countSections t := by
  have e1 : goStr "## " ++ url ++ goStr "\n\n" ++ t =
      (goStr "## " ++ url) ++ '\n' :: ('\n' :: t) := by
    rw [List.append_assoc, List.append_assoc]
    rfl
  rw [e1, countSections_append, countSections_newline_cons]
  have hnn : '\n' ∉ goStr "## " ++ url := by
    intro hm
    rcases List.mem_append.mp hm with hm | hm
    · exact absurd hm (by decide)
    · exact h hm
  have hhd : Engine.countSections (goStr "## " ++ url) = 1 := by
    unfold Engine.countSections
    rw [splitLines_no_newline _ hnn, List.filter_cons,
      if_pos (by simp [ List.isPrefixOf_iff_prefix])]
    rfl
  rw [hhd]

theorem countSections_joinSep (xs : List GoStr) :
    Engine.countSections (joinSep (goStr "\n\n---\n\n") xs) =
      (xs.map Engine.countSections).sum := by
  induction xs with
  | nil => rfl
  | cons x xs ih =>
    cases xs with
    | nil => simp [joinSep]
    | cons y ys =>
      rw [show joinSep (goStr "\n\n---\n\n") (x :: y :: ys) =
          x ++ goStr "\n\n---\n\n" ++ joinSep (goStr "\n\n---\n\n") (y :: ys) from rfl]
      rw [countSections_sep, ih]
      simp

theorem sum_map_one_add {α : Type} (l : List α) (g : α → Nat) :
    (l.map (fun a => 1 + g a)).sum = l.length + (l.map g).sum := by
  induction l with
  | nil => rfl
  | cons a l ih =>
    simp only [List.map_cons, List.sum_cons, List.length_cons, ih]
    omega

/-- The line count of a consolidated document: one header per survivor plus
every `"## "`-starting line inside the trimmed survivor texts (as long as no
source URL contains a newline). -/
theorem countSections_consolidate (pages : List Scraper.ScrapedPage)
    (hurl : ∀ p ∈ survivors pages, '\n' ∉ p.url) :
    Engine.countSections (Engine.consolidate pages).1 =
      (Engine.consolidate pages).2 +
        ((survivors pages).map
          (fun p => Engine.countSections (goTrimSpace p.content))).sum := by
  rw [consolidate_eq]
  simp only []
  rw [countSections_joinSep, List.map_map]
  have he : List.map (Engine.countSections ∘ sectionOf) (survivors pages) =
      List.map (fun p => 1 + Engine.countSections (goTrimSpace p.content))
        (survivors pages) :=
    List.map_congr_left (fun p hp =>
      countSections_section p.url (goTrimSpace p.content) (hurl p hp))
  rw [he, sum_map_one_add]

theorem countSections_eq_zero_iff (s : GoStr) :
    Engine.countSections s = 0 ↔ hasSectionLine s = false := by
  unfold Engine.countSections hasSectionLine
  simp [List.length_eq_zero, List.filter_eq_nil_iff, List.any_eq_false]

/-- C9 counterexample: with the single page `(url "u", text " ## x", no
error)`, no line of the raw survivor text starts with `"## "`, yet
`countSections` of the consolidated document is 2 while the survivor count is
1 — trimming turned the leading `" ## x"` into a line that counts. -/
theorem C9_counterexample :
    (∀ p ∈ ([⟨goStr "u", goStr " ## x", none⟩] : List Scraper.ScrapedPage),
      hasSectionLine p.content = false) ∧
    (Engine.consolidate [⟨goStr "u", goStr " ## x", none⟩]).2 = 1 ∧
    Engine.countSections (Engine.consolidate [⟨goStr "u", goStr " ## x", none⟩]).1 = 2 := by
  decide

/-- C9 (amended): on a cache hit `Search` derives `ResultCount` by counting
the `"## "`-prefixed lines of the cached content; for every fetch-result list
whose surviving URLs contain no newline, if no survivor's trimmed text
contains a line starting with `"## "` then `countSections` of the consolidated
document equals the survivor count, while if some survivor's trimmed text
contains such a line the cache-hit count is strictly larger than the fresh
run's count. -/
theorem C9_countsections_vs_count (pages : List Scraper.ScrapedPage)
    (hurl : ∀ p ∈ survivors pages, '\n' ∉ p.url) :
    ((∀ p ∈ survivors pages, hasSectionLine (goTrimSpace p.content) = false) →
      Engine.countSections (Engine.consolidate pages).1 = (Engine.consolidate pages).2) ∧
    ((∃ p ∈ survivors pages, hasSectionLine (goTrimSpace p.content) = true) →
      (Engine.consolidate pages).2 < Engine.countSections (Engine.consolidate pages).1) ∧
    (∀ (st : Cache.State) (now : Int) (q : GoStr)
        (o : Except GoStr (List Search.Result)) (fetch : GoStr → GoStr × Option GoStr)
        (r : Engine.SearchResult),
      (Engine.Search st now q false o fetch).1 = .ok r → r.fromCache = true →
      r.resultCount = Engine.countSections r.content) := by
  refine ⟨?_, ?_, ?_⟩
  · intro hz
    rw [countSections_consolidate pages hurl]
    have hs : ((survivors pages).map
        (fun p => Engine.countSections (goTrimSpace p.content))).sum = 0 := by
      rw [List.sum_eq_zero]
      intro x hx
      rw [List.mem_map] at hx
      obtain ⟨p, hp, rfl⟩ := hx
      exact (countSections_eq_zero_iff _).mpr (hz p hp)
    rw [hs]
    omega
  · rintro ⟨p0, hp0, hsec⟩
    rw [countSections_consolidate pages hurl]
    have hpos : 0 < Engine.countSections (goTrimSpace p0.content) := by
      rcases Nat.eq_zero_or_pos (Engine.countSections (goTrimSpace p0.content)) with h | h
      · exact absurd ((countSections_eq_zero_iff _).mp h) (by simp [hsec])
      · exact h
    have hmem : Engine.countSections (goTrimSpace p0.content) ∈
        (survivors pages).map (fun p => Engine.countSections (goTrimSpace p.content)) :=
      List.mem_map_of_mem _ hp0
    have hle := List.single_le_sum (fun x _ => Nat.zero_le x) _ hmem
    omega
  · intro st now q o fetch r hr hfc
    by_cases hhit : (Cache.Get st now (Engine.queryHash q)).2 = true
    · simp [Engine.Search, hhit] at hr
      rw [← hr]
    · have hh0 : (Cache.Get st now (Engine.queryHash q)).2 = false := by
        simpa using hhit
      cases o with
      | error msg => simp [Engine.Search, hh0] at hr
      | ok results =>
        by_cases h0 : results.length = 0
        · simp [Engine.Search, hh0, h0] at hr
        · by_cases hc1 : (Engine.consolidate
              (Scraper.Scrape fetch (results.map (fun r => r.url)))).1 = []
          · simp [Engine.Search, hh0, h0, hc1] at hr
          · simp [Engine.Search, hh0, h0, hc1] at hr
            rw [← hr] at hfc
            simp at hfc

set_option maxRecDepth 40000 in
/-- Witness for the amended C9: a clean survivor gives equal counts; a
survivor whose text embeds a `"## "` line makes the hit-side count strictly
larger; and a concrete cache hit reports `countSections` of the content. -/
theorem C9_witness :
    Engine.countSections (Engine.consolidate [⟨goStr "u", goStr "hello", none⟩]).1 =
      (Engine.consolidate [⟨goStr "u", goStr "hello", none⟩]).2 ∧
    (Engine.consolidate [⟨goStr "v", goStr "a\n## b", none⟩]).2 <
      Engine.countSections (Engine.consolidate [⟨goStr "v", goStr "a\n## b", none⟩]).1 ∧
    (⟨goStr "content", 0, true⟩ : Engine.SearchResult).resultCount =
      Engine.countSections (⟨goStr "content", 0, true⟩ : Engine.SearchResult).content := by
  refine ⟨(C9_countsections_vs_count [⟨goStr "u", goStr "hello", none⟩] (by decide)).1
      (by decide),
    (C9_countsections_vs_count [⟨goStr "v", goStr "a\n## b", none⟩] (by decide)).2.1
      ⟨⟨goStr "v", goStr "a\n## b", none⟩, by decide, by decide⟩,
    (C9_countsections_vs_count [] (by decide)).2.2
      [(Engine.queryHash (goStr "q"), ⟨goStr "content", 0⟩)] 0 (goStr "q")
      (.ok []) (fun u => ([], none)) ⟨goStr "content", 0, true⟩ rfl rfl⟩
